import Mathlib

/- Shallow embedding of the market-intelligence chatbot backend core
   (chatbot-backend/utils/redis_client.py, utils/cache.py,
   utils/rate_limiter.py, mcp_client/client.py, agent/graph.py) and proofs
   about the embedded operations.  Python float state is modelled with exact
   rationals; the key-value store, the json library entry points used by this
   code (json.loads / json.dumps on opaque collaborator values), the LLM and
   the MCP transport are external collaborators and appear as parameters. -/

namespace Market

/-! Cache key derivation: utils/cache.py ResponseCache._make_key.
    The embedded json.dumps covers the values tool keyword arguments take
    (strings, ints, booleans, None), with Python 3 default options:
    ensure_ascii escaping and ", " item separators. -/

/-- Flat JSON argument values, the domain of tool keyword arguments. -/
inductive JVal where
  | str : String → JVal
  | int : Int → JVal
  | bool : Bool → JVal
  | null : JVal
deriving DecidableEq

def hex_digits : List Char := "0123456789abcdef".data

def hex_digit (n : ℕ) : Char := hex_digits.getD n '0'

/-- Four lowercase hex digits of a value below 65536, as in %04x. -/
def hex4 (n : ℕ) : List Char :=
  [hex_digit (n / 4096 % 16), hex_digit (n / 256 % 16), hex_digit (n / 16 % 16),
   hex_digit (n % 16)]

/-- Decimal digits of a natural number (fuel-structured so that it reduces). -/
def nat_chars_aux : ℕ → ℕ → List Char
  | 0, _ => []
  | Nat.succ fuel, n =>
    if n < 10 then [hex_digit n] else nat_chars_aux fuel (n / 10) ++ [hex_digit (n % 10)]

def nat_chars (n : ℕ) : List Char := nat_chars_aux (n + 1) n

/-- Python repr of an int, as json.dumps serializes it. -/
def int_chars (n : Int) : List Char :=
  if n < 0 then '-' :: nat_chars n.natAbs else nat_chars n.toNat

/-- Two-character escapes of json.dumps (its ESCAPE_DCT). -/
def esc_special (c : Char) : Option Char :=
  if c = '"' then Option.some '"'
  else if c = '\\' then Option.some '\\'
  else if c = '\x08' then Option.some 'b'
  else if c = '\x0c' then Option.some 'f'
  else if c = '\n' then Option.some 'n'
  else if c = '\r' then Option.some 'r'
  else if c = '\t' then Option.some 't'
  else Option.none

/-- Encoding of one character inside a json.dumps string literal with
    ensure_ascii: printable ASCII other than quote and backslash stays
    itself, ESCAPE_DCT characters get two-character escapes, every other
    character becomes a backslash-u sequence, non-BMP characters a UTF-16
    surrogate pair of such sequences. -/
def esc_char (c : Char) : List Char :=
  match esc_special c with
  | Option.some d => ['\\', d]
  | Option.none =>
    if c.toNat < 32 ∨ 127 ≤ c.toNat then
      if c.toNat < 65536 then '\\' :: 'u' :: hex4 c.toNat
      else
        ('\\' :: 'u' :: hex4 (55296 + (c.toNat - 65536) / 1024)) ++
          ('\\' :: 'u' :: hex4 (56320 + (c.toNat - 65536) % 1024))
    else [c]

def esc_string (s : List Char) : List Char := s.flatMap esc_char

/-- A json.dumps string literal. -/
def enc_str (s : List Char) : List Char := '"' :: esc_string s ++ ['"']

def enc_val : JVal → List Char
  | JVal.str s => enc_str s.data
  | JVal.int n => int_chars n
  | JVal.bool true => ['t', 'r', 'u', 'e']
  | JVal.bool false => ['f', 'a', 'l', 's', 'e']
  | JVal.null => ['n', 'u', 'l', 'l']

/-- One (key, value) tuple, serialized by json.dumps as a two-element array. -/
def enc_pair (p : String × JVal) : List Char :=
  '[' :: (enc_str p.1.data ++ ',' :: ' ' :: enc_val p.2) ++ [']']

def enc_items_aux : List (String × JVal) → List Char
  | [] => []
  | [p] => enc_pair p
  | p :: q :: ps => enc_pair p ++ ',' :: ' ' :: enc_items_aux (q :: ps)

/-- json.dumps of a list of (key, value) tuples with default separators. -/
def enc_items (l : List (String × JVal)) : List Char := '[' :: enc_items_aux l ++ [']']

/-- Python sorted(kwargs.items()) compares tuples lexicographically; dict
    keys are unique, so the comparison reduces to the code-point order on
    keys, which is also the order on Lean strings. -/
def pair_le (a b : String × JVal) : Prop := a.1 < b.1 ∨ a.1 = b.1

instance pair_le_dec : DecidableRel pair_le := fun a b =>
  decidable_of_iff (a.1.toList < b.1.toList ∨ a.1 = b.1)
    (or_congr String.lt_iff_toList_lt.symm Iff.rfl)

/-- Strict key order on items, used to show sorted item lists of a map are
    unique. -/
def pair_lt (a b : String × JVal) : Prop := a.1 < b.1

instance pair_le_trans : IsTrans (String × JVal) pair_le :=
  ⟨fun _ _ _ hab hbc => by
    rcases hab with h1 | h1 <;> rcases hbc with h2 | h2
    · exact Or.inl (lt_trans h1 h2)
    · exact Or.inl (h2 ▸ h1)
    · exact Or.inl (h1 ▸ h2)
    · exact Or.inr (h1.trans h2)⟩

instance pair_le_total : IsTotal (String × JVal) pair_le :=
  ⟨fun a b => by
    rcases lt_trichotomy a.1 b.1 with h | h | h
    · exact Or.inl (Or.inl h)
    · exact Or.inl (Or.inr h)
    · exact Or.inr (Or.inl h)⟩

instance pair_lt_antisymm : IsAntisymm (String × JVal) pair_lt :=
  ⟨fun _ _ h1 h2 => absurd h1 (lt_asymm h2)⟩

/-- Value of a decimal digit string, used to invert nat_chars. -/
def digits_val (l : List Char) : ℕ := l.foldl (fun a c => 10 * a + (c.toNat - 48)) 0

def sort_items (l : List (String × JVal)) : List (String × JVal) :=
  List.insertionSort pair_le l

/-- The key_data string hashed by _make_key. -/
def key_data (l : List (String × JVal)) : List Char := enc_items (sort_items l)

/-- UTF-8 bytes of one character (str.encode()). -/
def utf8_char (c : Char) : List ℕ :=
  if c.toNat < 128 then [c.toNat]
  else if c.toNat < 2048 then [192 + c.toNat / 64, 128 + c.toNat % 64]
  else if c.toNat < 65536 then
    [224 + c.toNat / 4096, 128 + c.toNat / 64 % 64, 128 + c.toNat % 64]
  else
    [240 + c.toNat / 262144, 128 + c.toNat / 4096 % 64, 128 + c.toNat / 64 % 64,
     128 + c.toNat % 64]

def utf8 (s : List Char) : List ℕ := s.flatMap utf8_char

/-! SHA-256 over byte lists, hashlib.sha256: words are naturals reduced
    modulo 2 to the 32nd, written 4294967296. -/

def sha_k : List ℕ :=
  [1116352408, 1899447441, 3049323471, 3921009573,
   961987163, 1508970993, 2453635748, 2870763221,
   3624381080, 310598401, 607225278, 1426881987,
   1925078388, 2162078206, 2614888103, 3248222580,
   3835390401, 4022224774, 264347078, 604807628,
   770255983, 1249150122, 1555081692, 1996064986,
   2554220882, 2821834349, 2952996808, 3210313671,
   3336571891, 3584528711, 113926993, 338241895,
   666307205, 773529912, 1294757372, 1396182291,
   1695183700, 1986661051, 2177026350, 2456956037,
   2730485921, 2820302411, 3259730800, 3345764771,
   3516065817, 3600352804, 4094571909, 275423344,
   430227734, 506948616, 659060556, 883997877,
   958139571, 1322822218, 1537002063, 1747873779,
   1955562222, 2024104815, 2227730452, 2361852424,
   2428436474, 2756734187, 3204031479, 3329325298]

structure Hash8 where
  a : ℕ
  b : ℕ
  c : ℕ
  d : ℕ
  e : ℕ
  f : ℕ
  g : ℕ
  h : ℕ

def sha_init : Hash8 :=
  ⟨1779033703, 3144134277, 1013904242, 2773480762,
   1359893119, 2600822924, 528734635, 1541459225⟩

def add32 (x y : ℕ) : ℕ := (x + y) % 4294967296

def rotr (k w : ℕ) : ℕ := (w / 2 ^ k + w % 2 ^ k * 2 ^ (32 - k)) % 4294967296

def shr (k w : ℕ) : ℕ := w / 2 ^ k

def not32 (w : ℕ) : ℕ := 4294967295 - w % 4294967296

def bsig0 (w : ℕ) : ℕ := rotr 2 w ^^^ rotr 13 w ^^^ rotr 22 w

def bsig1 (w : ℕ) : ℕ := rotr 6 w ^^^ rotr 11 w ^^^ rotr 25 w

def ssig0 (w : ℕ) : ℕ := rotr 7 w ^^^ rotr 18 w ^^^ shr 3 w

def ssig1 (w : ℕ) : ℕ := rotr 17 w ^^^ rotr 19 w ^^^ shr 10 w

def ch (x y z : ℕ) : ℕ := (x &&& y) ^^^ (not32 x &&& z)

def maj (x y z : ℕ) : ℕ := (x &&& y) ^^^ (x &&& z) ^^^ (y &&& z)

/-- Big-endian 4-byte groups to 32-bit words. -/
def to_words : List ℕ → List ℕ
  | b0 :: b1 :: b2 :: b3 :: rest =>
    (b0 * 16777216 + b1 * 65536 + b2 * 256 + b3) :: to_words rest
  | _ => []

def sched_step (ws : List ℕ) (i : ℕ) : List ℕ :=
  ws ++ [(ssig1 (ws.getD (i - 2) 0) + ws.getD (i - 7) 0 + ssig0 (ws.getD (i - 15) 0) +
    ws.getD (i - 16) 0) % 4294967296]

/-- Message schedule: extend 16 words to 64. -/
def sched (ws : List ℕ) : List ℕ := (List.range' 16 48).foldl sched_step ws

def round_step (st : Hash8) (kw : ℕ × ℕ) : Hash8 :=
  ⟨((st.h + bsig1 st.e + ch st.e st.f st.g + kw.1 + kw.2) % 4294967296 +
      (bsig0 st.a + maj st.a st.b st.c) % 4294967296) % 4294967296,
   st.a, st.b, st.c,
   (st.d + (st.h + bsig1 st.e + ch st.e st.f st.g + kw.1 + kw.2) % 4294967296) % 4294967296,
   st.e, st.f, st.g⟩

def compress_block (st : Hash8) (block : List ℕ) : Hash8 :=
  let fin := (sha_k.zip (sched (to_words block))).foldl round_step st
  ⟨add32 st.a fin.a, add32 st.b fin.b, add32 st.c fin.c, add32 st.d fin.d,
   add32 st.e fin.e, add32 st.f fin.f, add32 st.g fin.g, add32 st.h fin.h⟩

/-- Append the 0x80 byte, zero padding to 56 mod 64, and the 8-byte
    big-endian bit length. -/
def pad_msg (m : List ℕ) : List ℕ :=
  m ++ 128 :: List.replicate ((119 - m.length % 64) % 64) 0 ++
    [m.length * 8 / 72057594037927936 % 256, m.length * 8 / 281474976710656 % 256,
     m.length * 8 / 1099511627776 % 256, m.length * 8 / 4294967296 % 256,
     m.length * 8 / 16777216 % 256, m.length * 8 / 65536 % 256,
     m.length * 8 / 256 % 256, m.length * 8 % 256]

def sha_aux : ℕ → Hash8 → List ℕ → Hash8
  | 0, st, _ => st
  | Nat.succ fuel, st, bs =>
    if bs = [] then st else sha_aux fuel (compress_block st (bs.take 64)) (bs.drop 64)

def sha256 (m : List ℕ) : Hash8 := sha_aux (pad_msg m).length sha_init (pad_msg m)

def word_hex (w : ℕ) : List Char :=
  [hex_digit (w / 268435456 % 16), hex_digit (w / 16777216 % 16),
   hex_digit (w / 1048576 % 16), hex_digit (w / 65536 % 16),
   hex_digit (w / 4096 % 16), hex_digit (w / 256 % 16), hex_digit (w / 16 % 16),
   hex_digit (w % 16)]

/-- hashlib hexdigest of a final hash state. -/
def hexdigest (st : Hash8) : List Char :=
  word_hex st.a ++ word_hex st.b ++ word_hex st.c ++ word_hex st.d ++
    word_hex st.e ++ word_hex st.f ++ word_hex st.g ++ word_hex st.h

def sha_hex (m : List ℕ) : List Char := hexdigest (sha256 m)

/-- The 16-hex-character digest piece of a cache key. -/
def hash_tag (l : List (String × JVal)) : List Char := (sha_hex (utf8 (key_data l))).take 16

/-- ResponseCache._make_key (utils/cache.py 27-48). -/
def make_key (name : String) (l : List (String × JVal)) : String :=
  "cache:" ++ name ++ ":" ++ String.mk (hash_tag l)

/-! Token-bucket rate limiter: utils/rate_limiter.py TokenBucketRateLimiter. -/

/-- Bucket state stored in Redis by check_rate_limit. -/
structure Bucket where
  tokens : ℚ
  last_refill : ℚ
deriving DecidableEq

/-- Rate limit info returned by check_rate_limit, restricted to the fields
    the claims are about; hasError records the presence of the "error" key
    of the exception path. -/
structure RateInfo where
  allowed : Bool
  remaining : Int
  reset_in : Int
  hasError : Bool
deriving DecidableEq

/-- Outcome of the Redis read at the start of a check: a stored bucket, an
    absent (or empty, hence falsy) value, or a raised storage error. -/
inductive Fetch where
  | ok : Option Bucket → Fetch
  | err : Fetch
deriving DecidableEq

/-- Observables of one check_rate_limit call: verdict, info, the bucket
    written back (none when nothing is written) and whether the call went
    past the disabled early return into the try block. -/
structure CheckResult where
  allowed : Bool
  info : RateInfo
  store : Option Bucket
  attempted : Bool
deriving DecidableEq

/-- Python int() on a float value: truncation toward zero. -/
def pyInt (q : ℚ) : Int := if q < 0 then -Int.floor (-q) else Int.floor q

/-- Token count after the refill step of check_rate_limit
    (utils/rate_limiter.py 93-101): a missing bucket starts full, then
    elapsed * refill_rate tokens are added and the result is clamped to
    capacity = rpm + burst by min. -/
def rl_tokens1 (rpm burst : ℕ) (data : Option Bucket) (now : ℚ) : ℚ :=
  min ((rpm : ℚ) + burst)
    ((match data with | some b => b.tokens | none => (rpm : ℚ) + burst) +
      (now - (match data with | some b => b.last_refill | none => now)) * ((rpm : ℚ) / 60))

/-- Token count after the consume step (utils/rate_limiter.py 103-109):
    one token is consumed exactly when at least one is available. -/
def rl_tokens2 (rpm burst : ℕ) (data : Option Bucket) (now : ℚ) : ℚ :=
  if 1 ≤ rl_tokens1 rpm burst data now then rl_tokens1 rpm burst data now - 1
  else rl_tokens1 rpm burst data now

/-- The reset_in computation (utils/rate_limiter.py 111-116): tokens_needed
    is 0 when the request was allowed and 1 - tokens otherwise. -/
def rl_reset (rpm burst : ℕ) (data : Option Bucket) (now : ℚ) : Int :=
  if rl_tokens2 rpm burst data now < (rpm : ℚ) + burst then
    pyInt ((if 1 ≤ rl_tokens1 rpm burst data now then 0
            else 1 - rl_tokens2 rpm burst data now) / ((rpm : ℚ) / 60)) + 1
  else 0

/-- TokenBucketRateLimiter.check_rate_limit (utils/rate_limiter.py 62-146)
    for a limiter with requests_per_minute = rpm and burst = burst, so
    capacity = rpm + burst and refill_rate = rpm / 60, and the enabled flag
    frozen at construction.  fetch is the redis_client.get outcome, now is
    time.time().  When refill_rate is zero and the reset computation runs
    (that is, when the post-consume count is below capacity), Python raises
    ZeroDivisionError, landing in the except branch, which allows the
    request, reports an error and writes nothing. -/
def check_rate_limit (rpm burst : ℕ) (enabled : Bool) (fetch : Fetch) (now : ℚ) :
    CheckResult :=
  if enabled = false then
    ⟨true, ⟨true, (rpm : Int) + burst, 0, false⟩, none, false⟩
  else
    match fetch with
    | Fetch.err => ⟨true, ⟨true, (rpm : Int) + burst, 0, true⟩, none, true⟩
    | Fetch.ok data =>
      if rl_tokens2 rpm burst data now < (rpm : ℚ) + burst ∧ (rpm : ℚ) / 60 = 0 then
        ⟨true, ⟨true, (rpm : Int) + burst, 0, true⟩, none, true⟩
      else
        ⟨decide (1 ≤ rl_tokens1 rpm burst data now),
         ⟨decide (1 ≤ rl_tokens1 rpm burst data now), pyInt (rl_tokens2 rpm burst data now),
          rl_reset rpm burst data now, false⟩,
         some ⟨rl_tokens2 rpm burst data now, now⟩, true⟩

/-- TokenBucketRateLimiter._get_key (utils/rate_limiter.py 49-60). -/
def rl_key (identifier endpoint : String) : String :=
  "ratelimit:" ++ endpoint ++ ":" ++ identifier

/-- One check against a store whose per-key behaviour at call time is store. -/
def check_rate_limit_at (rpm burst : ℕ) (enabled : Bool) (store : String → Fetch)
    (identifier endpoint : String) (now : ℚ) : CheckResult :=
  check_rate_limit rpm burst enabled (store (rl_key identifier endpoint)) now

/-- Back-to-back checks with no time passing, threading each saved bucket
    into the next read, modelling successive calls for one identity and
    endpoint against a working store. -/
def run_checks (rpm burst : ℕ) : ℕ → Option Bucket → ℚ → List CheckResult
  | 0, _, _ => []
  | Nat.succ n, b, now =>
    let r := check_rate_limit rpm burst true (Fetch.ok b) now
    r :: run_checks rpm burst n (match r.store with | some nb => some nb | none => b) now

/-! Store availability: utils/redis_client.py RedisClient._initialize,
    sampled once when the module-level singleton is created. -/

/-- Availability requires both credentials present and non-empty and a
    successful initial ping; any exception leaves the client unavailable. -/
def redis_available (url token : Option String) (pingOk : Bool) : Bool :=
  if url.getD "" = "" ∨ token.getD "" = "" then false else pingOk

/-- ResponseCache fields captured at construction (utils/cache.py 14-25). -/
structure ResponseCacheInst where
  default_ttl : Int
  enabled : Bool

def mk_response_cache (avail : Bool) : ResponseCacheInst := ⟨300, avail⟩

/-- TokenBucketRateLimiter fields captured at construction
    (utils/rate_limiter.py 32-47). -/
structure RateLimiterInst where
  requests_per_minute : ℕ
  burst : ℕ
  enabled : Bool

def mk_rate_limiter (rpm burst : ℕ) (avail : Bool) : RateLimiterInst := ⟨rpm, burst, avail⟩

/-! MCP tool RPC client: mcp_client/client.py MCPClientWrapper. -/

/-- Connection-relevant fields of MCPClientWrapper: whether self.session is
    set, and the _is_connected flag. -/
structure ClientState where
  session : Bool
  is_connected : Bool
deriving DecidableEq

/-- Observables of one call_tool invocation: the returned or raised outcome,
    the client state afterwards, and how many connect() calls the invocation
    performed. -/
structure CallResult where
  result : Except String String
  state : ClientState
  connectCalls : ℕ

def runtime_err_msg : String := "RuntimeError: MCP session not initialized"

/-- MCPClientWrapper.call_tool (mcp_client/client.py 160-184): raise
    RuntimeError when self.session is unset, otherwise perform the RPC once
    and return its result, re-raising any error.  The method body contains no
    connect or disconnect call and assigns neither _is_connected nor
    session. -/
def call_tool (st : ClientState) (rpc : Except String String) : CallResult :=
  if st.session = false then ⟨Except.error runtime_err_msg, st, 0⟩
  else
    match rpc with
    | Except.ok r => ⟨Except.ok r, st, 0⟩
    | Except.error e => ⟨Except.error e, st, 0⟩

/-! Agent orchestration loop: agent/graph.py MarketIntelligenceAgent. -/

/-- JSON-serializable Python values flowing through the agent: cached
    values, decoded tool results, tool arguments and error payloads. -/
inductive PyVal where
  | str : String → PyVal
  | int : Int → PyVal
  | bool : Bool → PyVal
  | null : PyVal
  | list : List PyVal → PyVal
  | obj : List (String × PyVal) → PyVal

/-- Python truthiness, as used by "if cached_result:". -/
def py_truthy : PyVal → Bool
  | PyVal.str s => decide (s ≠ "")
  | PyVal.int n => decide (n ≠ 0)
  | PyVal.bool b => b
  | PyVal.null => false
  | PyVal.list l => !l.isEmpty
  | PyVal.obj l => !l.isEmpty

structure ToolCall where
  id : String
  name : String
  args : List (String × PyVal)

/-- A ToolMessage: content is the json.dumps presentation of contentVal. -/
structure ToolMsg where
  content : String
  contentVal : PyVal
  tool_call_id : String
  name : String

structure McpItem where
  text : Option String

/-- An MCP CallToolResult: its content list (items optionally carrying
    text) and its str() rendering used by the fallback branch. -/
structure McpResult where
  content : List McpItem
  asString : String

/-- Result extraction from an MCP result (agent/graph.py 219-234): when the
    content list is non-empty, each item carrying text is decoded with
    json.loads, a decode failure wrapping the text as a result field, the
    last such item winning; an empty content falls back to wrapping
    str(mcp_result). -/
def extract_result (loads : String → Except String PyVal) (r : McpResult) : PyVal :=
  if r.content.isEmpty then PyVal.obj [("result", PyVal.str r.asString)]
  else
    r.content.foldl
      (fun acc item =>
        match item.text with
        | Option.none => acc
        | Option.some t =>
          match loads t with
          | Except.ok v => v
          | Except.error _ => PyVal.obj [("result", PyVal.str t)])
      (PyVal.obj [])

structure ToolOutcome where
  msg : ToolMsg
  usedRpc : Bool

/-- The RPC branch of the _tools_node loop body, including the except
    branch that wraps a raised error into an error payload message
    (agent/graph.py 215-262); the subsequent cache.set has no observable
    needed here. -/
def rpc_tool_call (dumps : PyVal → String)
    (mcp_call : String → List (String × PyVal) → Except String McpResult)
    (loads : String → Except String PyVal) (tc : ToolCall) : ToolOutcome :=
  match mcp_call tc.name tc.args with
  | Except.ok r =>
    ⟨⟨dumps (extract_result loads r), extract_result loads r, tc.id, tc.name⟩, true⟩
  | Except.error e =>
    ⟨⟨dumps (PyVal.obj [("error", PyVal.str e), ("tool", PyVal.str tc.name)]),
      PyVal.obj [("error", PyVal.str e), ("tool", PyVal.str tc.name)], tc.id, tc.name⟩,
     true⟩

/-- One iteration of the _tools_node loop (agent/graph.py 202-262): the
    cached value is used only when truthy, otherwise the tool is called over
    RPC; every branch appends exactly one tool message carrying the
    originating call id. -/
def run_tool_call (dumps : PyVal → String)
    (cache_lookup : String → List (String × PyVal) → Option PyVal)
    (mcp_call : String → List (String × PyVal) → Except String McpResult)
    (loads : String → Except String PyVal) (tc : ToolCall) : ToolOutcome :=
  match cache_lookup tc.name tc.args with
  | Option.some v =>
    if py_truthy v then ⟨⟨dumps v, v, tc.id, tc.name⟩, false⟩
    else rpc_tool_call dumps mcp_call loads tc
  | Option.none => rpc_tool_call dumps mcp_call loads tc

/-- MarketIntelligenceAgent._tools_node (agent/graph.py 187-264). -/
def tools_node (dumps : PyVal → String)
    (cache_lookup : String → List (String × PyVal) → Option PyVal)
    (mcp_call : String → List (String × PyVal) → Except String McpResult)
    (loads : String → Except String PyVal) (calls : List ToolCall) : List ToolOutcome :=
  calls.map (run_tool_call dumps cache_lookup mcp_call loads)

inductive Msg where
  | human : String → Msg
  | ai : String → List ToolCall → Msg
  | tool : ToolMsg → Msg
  | system : String → Msg

def msg_content : Msg → String
  | Msg.human s => s
  | Msg.ai c _ => c
  | Msg.tool tm => tm.content
  | Msg.system s => s

/-- MarketIntelligenceAgent._agent_node (agent/graph.py 130-164): a raised
    LLM error becomes a plain error AIMessage with no tool calls. -/
def agent_node (llm : List Msg → Except String (String × List ToolCall))
    (msgs : List Msg) : String × List ToolCall :=
  match llm msgs with
  | Except.ok r => r
  | Except.error e => ("I encountered an error while processing your request: " ++ e, [])

def recursion_msg : String := "GraphRecursionError"

/-- The compiled graph loop (agent/graph.py _build_graph and
    _should_continue): reason, then act while the last AI message carries
    tool calls; fuel models the LangGraph recursion limit, whose exhaustion
    raises GraphRecursionError. -/
def run_loop (llm : List Msg → Except String (String × List ToolCall))
    (dumps : PyVal → String)
    (cache_lookup : String → List (String × PyVal) → Option PyVal)
    (mcp_call : String → List (String × PyVal) → Except String McpResult)
    (loads : String → Except String PyVal) : ℕ → List Msg → Except String (List Msg)
  | 0, _ => Except.error recursion_msg
  | Nat.succ fuel, msgs =>
    let step := agent_node llm msgs
    if step.2.isEmpty then Except.ok (msgs ++ [Msg.ai step.1 step.2])
    else
      run_loop llm dumps cache_lookup mcp_call loads fuel
        ((msgs ++ [Msg.ai step.1 step.2]) ++
          (tools_node dumps cache_lookup mcp_call loads step.2).map (fun o => Msg.tool o.msg))

def last_content (msgs : List Msg) : String :=
  match msgs.getLast? with
  | Option.some m => msg_content m
  | Option.none => ""

/-- The tools_used extraction of invoke (agent/graph.py 295-298). -/
def tools_used (msgs : List Msg) : List String :=
  msgs.foldl
    (fun acc m =>
      match m with
      | Msg.ai _ tcs => acc ++ tcs.map (fun tc => tc.name)
      | _ => acc)
    []

/-- MarketIntelligenceAgent.invoke (agent/graph.py 266-306): run the graph,
    return the last message content and the tools used; any raised error is
    converted into an error answer with an empty tool list. -/
def invoke (llm : List Msg → Except String (String × List ToolCall))
    (dumps : PyVal → String)
    (cache_lookup : String → List (String × PyVal) → Option PyVal)
    (mcp_call : String → List (String × PyVal) → Except String McpResult)
    (loads : String → Except String PyVal) (fuel : ℕ) (message : String) :
    String × List String :=
  match run_loop llm dumps cache_lookup mcp_call loads fuel [Msg.human message] with
  | Except.ok msgs => (last_content msgs, tools_used msgs)
  | Except.error e => ("I encountered an error: " ++ e, [])

/-! Response cache operations: utils/cache.py ResponseCache.  Each returns
    its Python result paired with whether the call went past the disabled
    early return into the try block. -/

/-- The try block of ResponseCache.get (utils/cache.py 64-77): a fetched
    value is used only when truthy (a non-empty string); json.loads failures
    land in the except branch, reported as a miss. -/
def cache_get_core (store_get : String → Option String)
    (loads : String → Except String PyVal) (name : String)
    (args : List (String × JVal)) : Option PyVal :=
  match store_get (make_key name args) with
  | Option.none => Option.none
  | Option.some cached =>
    if cached = "" then Option.none
    else
      match loads cached with
      | Except.ok v => Option.some v
      | Except.error _ => Option.none

/-- ResponseCache.get (utils/cache.py 50-77): disabled instances return None
    without entering the try block; the second component records whether the
    try block ran. -/
def cache_get (enabled : Bool) (store_get : String → Option String)
    (loads : String → Except String PyVal) (name : String)
    (args : List (String × JVal)) : Option PyVal × Bool :=
  if enabled = false then (Option.none, false)
  else (cache_get_core store_get loads name args, true)

/-- The try block of ResponseCache.set (utils/cache.py 95-109): value_json
    is the json.dumps outcome, an exception landing in the except branch; a
    falsy ttl argument (None or 0) falls back to the 300-second default. -/
def cache_set_core (store_set : String → String → Int → Bool)
    (value_json : Except String String) (ttl : Option Int) (name : String)
    (args : List (String × JVal)) : Bool :=
  match value_json with
  | Except.error _ => false
  | Except.ok vj =>
    store_set (make_key name args) vj
      (match ttl with | Option.none => 300 | Option.some t => if t = 0 then 300 else t)

/-- ResponseCache.set (utils/cache.py 79-109). -/
def cache_set (enabled : Bool) (store_set : String → String → Int → Bool)
    (value_json : Except String String) (ttl : Option Int) (name : String)
    (args : List (String × JVal)) : Bool × Bool :=
  if enabled = false then (false, false)
  else (cache_set_core store_set value_json ttl name args, true)

/-- ResponseCache.delete (utils/cache.py 111-136). -/
def cache_delete (enabled : Bool) (store_del : String → Bool) (name : String)
    (args : List (String × JVal)) : Bool × Bool :=
  if enabled = false then (false, false)
  else (store_del (make_key name args), true)

/-! Theorems.  Helper lemmas come first, then one theorem per claim. -/

theorem pyInt_nonneg {q : ℚ} (h : 0 ≤ q) : 0 ≤ pyInt q := by
  unfold pyInt
  split
  · linarith
  · exact Int.floor_nonneg.mpr h

theorem pyInt_le_cap {q : ℚ} {c : ℕ} (h : q ≤ (c : ℚ)) : pyInt q ≤ (c : ℤ) := by
  unfold pyInt
  split
  · have h0 : (0 : ℤ) ≤ Int.floor (-q) := Int.floor_nonneg.mpr (by linarith)
    have hc : (0 : ℤ) ≤ (c : ℤ) := Int.natCast_nonneg c
    omega
  · calc Int.floor q ≤ Int.floor ((c : ℕ) : ℚ) := Int.floor_le_floor h
      _ = (c : ℤ) := Int.floor_natCast c

theorem pyInt_zero : pyInt 0 = 0 := by
  unfold pyInt
  norm_num

theorem rl_tokens1_le (rpm burst : ℕ) (data : Option Bucket) (now : ℚ) :
    rl_tokens1 rpm burst data now ≤ (rpm : ℚ) + burst :=
  min_le_left _ _

theorem rl_tokens2_le (rpm burst : ℕ) (data : Option Bucket) (now : ℚ) :
    rl_tokens2 rpm burst data now ≤ (rpm : ℚ) + burst := by
  have h := rl_tokens1_le rpm burst data now
  unfold rl_tokens2
  split <;> linarith

theorem rl_tokens2_lt_of_allowed (rpm burst : ℕ) (data : Option Bucket) (now : ℚ)
    (h : 1 ≤ rl_tokens1 rpm burst data now) :
    rl_tokens2 rpm burst data now < (rpm : ℚ) + burst := by
  have h1 := rl_tokens1_le rpm burst data now
  unfold rl_tokens2
  split <;> linarith

/-- C4: the token count computed after refill is clamped by min to
    capacity = requests_per_minute + burst, so no elapsed time (nor any
    stored state) can make the stored token count or the reported remaining
    count exceed capacity. -/
theorem C4_confirmed (rpm burst : ℕ) (enabled : Bool) (fetch : Fetch) (now : ℚ) :
    (check_rate_limit rpm burst enabled fetch now).info.remaining ≤ (rpm : ℤ) + burst ∧
    ∀ b : Bucket, (check_rate_limit rpm burst enabled fetch now).store = some b →
      b.tokens ≤ (rpm : ℚ) + burst := by
  unfold check_rate_limit
  split
  · exact ⟨le_refl _, by simp⟩
  · split
    · exact ⟨le_refl _, by simp⟩
    · rename_i data
      split
      · exact ⟨le_refl _, by simp⟩
      · constructor
        · have h := rl_tokens2_le rpm burst data now
          have h2 : rl_tokens2 rpm burst data now ≤ ((rpm + burst : ℕ) : ℚ) := by push_cast; linarith
          have := pyInt_le_cap h2
          simpa using this
        · intro b hb
          simp only [Option.some.injEq] at hb
          have h := rl_tokens2_le rpm burst data now
          rw [← hb]
          exact h

/-- C4 witness: a fresh full bucket at rpm = 10, burst = 5 stores 14 tokens
    after the allowed check, and 14 is within capacity. -/
theorem C4_witness :
    (check_rate_limit 10 5 true (Fetch.ok none) 0).store = some ⟨14, 0⟩ ∧
    (Bucket.mk 14 0).tokens ≤ ((10 : ℕ) : ℚ) + ((5 : ℕ) : ℚ) := by
  constructor
  · with_unfolding_all decide
  · exact (C4_confirmed 10 5 true (Fetch.ok none) 0).2 ⟨14, 0⟩ (by with_unfolding_all decide)

/-- C5: with requests_per_minute = 10 and burst = 0, eleven back-to-back
    checks for one identity and endpoint allow the first ten and deny the
    eleventh, whose reset_in is 7 (positive). -/
theorem C5_confirmed :
    (run_checks 10 0 11 none 0).map (fun r => r.allowed)
        = [true, true, true, true, true, true, true, true, true, true, false] ∧
    (run_checks 10 0 11 none 0).getLast?
        = some ⟨false, ⟨false, 0, 7, false⟩, some ⟨0, 0⟩, true⟩ ∧
    (0 : Int) < 7 := by
  refine ⟨?_, ?_, ?_⟩ <;> with_unfolding_all decide

/-- C6 counterexample: a bucket that is exactly full (15 tokens at capacity
    15) at the time of the check yields reset_in = 1, not 0, because the
    code computes reset_in from the post-consume token count. -/
theorem C6_counterexample :
    (check_rate_limit 10 5 true (Fetch.ok (some ⟨15, 0⟩)) 0).info.reset_in = 1 ∧
    (15 : ℚ) = ((10 : ℕ) : ℚ) + ((5 : ℕ) : ℚ) ∧ (1 : Int) ≠ 0 := by
  refine ⟨?_, ?_, ?_⟩
  · with_unfolding_all decide
  · norm_num
  · decide

/-- C6 amended: on the enabled path that writes a bucket back, reset_in is 0
    exactly when the post-consume token count equals capacity; every allowed
    request reports reset_in = 1, and a denied request with post-consume
    count below capacity reports the truncated seconds until one token
    refills plus one, which is at least 1.  In particular a bucket that was
    full at the time of the check yields reset_in = 1, not 0. -/
theorem C6_amended (rpm burst : ℕ) (fetch : Fetch) (now : ℚ) (b : Bucket)
    (hb : (check_rate_limit rpm burst true fetch now).store = some b) :
    ((check_rate_limit rpm burst true fetch now).info.reset_in = 0 ↔
      b.tokens = (rpm : ℚ) + burst) ∧
    ((check_rate_limit rpm burst true fetch now).allowed = true →
      (check_rate_limit rpm burst true fetch now).info.reset_in = 1) ∧
    ((check_rate_limit rpm burst true fetch now).allowed = false →
      b.tokens < 1 ∧
        (b.tokens < (rpm : ℚ) + burst →
          (check_rate_limit rpm burst true fetch now).info.reset_in
              = pyInt ((1 - b.tokens) / ((rpm : ℚ) / 60)) + 1 ∧
            1 ≤ (check_rate_limit rpm burst true fetch now).info.reset_in)) := by
  unfold check_rate_limit at hb ⊢
  simp only [Bool.true_eq_false, if_false] at hb ⊢
  cases fetch with
  | err => simp at hb
  | ok data =>
    by_cases hz : rl_tokens2 rpm burst data now < (rpm : ℚ) + burst ∧ (rpm : ℚ) / 60 = 0
    · simp [hz] at hb
    · simp only [hz, if_false] at hb ⊢
      simp only [Option.some.injEq] at hb
      have hbt : b.tokens = rl_tokens2 rpm burst data now := by rw [← hb]
      refine ⟨?_, ?_, ?_⟩
      · unfold rl_reset
        by_cases hlt : rl_tokens2 rpm burst data now < (rpm : ℚ) + burst
        · simp only [hlt, if_true]
          constructor
          · intro hres
            exfalso
            have hnn : 0 ≤ pyInt ((if 1 ≤ rl_tokens1 rpm burst data now then 0
                else 1 - rl_tokens2 rpm burst data now) / ((rpm : ℚ) / 60)) := by
              apply pyInt_nonneg
              have hrate : (0 : ℚ) ≤ (rpm : ℚ) / 60 := by positivity
              apply div_nonneg _ hrate
              split
              · linarith
              · rename_i hna
                push_neg at hna
                unfold rl_tokens2
                rw [if_neg (by push_neg; exact hna)]
                linarith
            omega
          · intro hcap
            rw [hbt] at hcap
            linarith
        · simp only [hlt, if_false]
          have h2 := rl_tokens2_le rpm burst data now
          have heq : rl_tokens2 rpm burst data now = (rpm : ℚ) + burst :=
            le_antisymm h2 (not_lt.mp hlt)
          simp [hbt, heq]
      · intro ha
        simp only [decide_eq_true_eq] at ha
        have hlt := rl_tokens2_lt_of_allowed rpm burst data now ha
        unfold rl_reset
        simp only [hlt, if_true, ha, if_pos]
        rw [zero_div, pyInt_zero]
        omega
      · intro hna
        simp only [decide_eq_false_iff_not] at hna
        have hna1 : ¬ (1 ≤ rl_tokens1 rpm burst data now) := hna
        have ht2 : rl_tokens2 rpm burst data now = rl_tokens1 rpm burst data now := by
          unfold rl_tokens2
          rw [if_neg hna1]
        constructor
        · rw [hbt, ht2]
          push_neg at hna1
          linarith
        · intro hcap
          rw [hbt] at hcap
          have hrate0 : (rpm : ℚ) / 60 ≠ 0 := fun h0 => hz ⟨hcap, h0⟩
          have hrate : (0 : ℚ) < (rpm : ℚ) / 60 :=
            lt_of_le_of_ne (by positivity) (Ne.symm hrate0)
          unfold rl_reset
          simp only [hbt] at hcap ⊢
          simp only [hcap, if_true, hna1, if_neg, if_false]
          constructor
          · trivial
          · have harg : (0 : ℚ) ≤ (1 - rl_tokens2 rpm burst data now) / ((rpm : ℚ) / 60) := by
              apply div_nonneg _ (le_of_lt hrate)
              rw [ht2]
              push_neg at hna1
              linarith
            have := pyInt_nonneg harg
            omega

/-- C6 amended witness: at rpm = 10, burst = 5, a fresh bucket is allowed
    and reports reset_in = 1. -/
theorem C6_amended_witness :
    (check_rate_limit 10 5 true (Fetch.ok none) 0).info.reset_in = 1 := by
  exact (C6_amended 10 5 (Fetch.ok none) 0 ⟨14, 0⟩
    (by with_unfolding_all decide)).2.1 (by with_unfolding_all decide)

/-- C1 counterexample: with no session (hence not connected), call_tool
    raises immediately, performing zero connect() calls, even though the RPC
    itself would have succeeded — there is no recovery-before-call; and a
    transport failure on a connected client leaves _is_connected true, so
    the client is not marked disconnected. -/
theorem C1_counterexample :
    (call_tool ⟨false, false⟩ (Except.ok "result")).connectCalls = 0 ∧
    (call_tool ⟨false, false⟩ (Except.ok "result")).result
        = Except.error runtime_err_msg ∧
    (call_tool ⟨true, true⟩ (Except.error "transport failure")).state.is_connected
        = true := by
  refine ⟨rfl, rfl, rfl⟩

/-- C1 amended: call_tool performs no reconnection whatsoever: it never
    calls connect(), it never changes the connection state, it raises
    RuntimeError when the session is unset (failing the whole call without
    recovery), and otherwise propagates the RPC outcome — transport failures
    included — unchanged. -/
theorem C1_amended (st : ClientState) (rpc : Except String String) :
    (call_tool st rpc).connectCalls = 0 ∧
    (call_tool st rpc).state = st ∧
    (st.session = false → (call_tool st rpc).result = Except.error runtime_err_msg) ∧
    (st.session = true → (call_tool st rpc).result = rpc) := by
  unfold call_tool
  rcases st with ⟨s, c⟩
  cases s <;> cases rpc <;> simp

/-- C1 amended witness: concrete evaluations of the amended statement. -/
theorem C1_amended_witness :
    (call_tool ⟨false, true⟩ (Except.ok "r")).result = Except.error runtime_err_msg ∧
    (call_tool ⟨true, true⟩ (Except.error "boom")).result = Except.error "boom" := by
  exact ⟨(C1_amended ⟨false, true⟩ (Except.ok "r")).2.2.1 rfl,
    (C1_amended ⟨true, true⟩ (Except.error "boom")).2.2.2 rfl⟩

theorem run_tool_call_tag (dumps : PyVal → String)
    (cache_lookup : String → List (String × PyVal) → Option PyVal)
    (mcp_call : String → List (String × PyVal) → Except String McpResult)
    (loads : String → Except String PyVal) (tc : ToolCall) :
    (run_tool_call dumps cache_lookup mcp_call loads tc).msg.tool_call_id = tc.id ∧
    (run_tool_call dumps cache_lookup mcp_call loads tc).msg.name = tc.name := by
  unfold run_tool_call rpc_tool_call
  cases hcg : cache_lookup tc.name tc.args with
  | none => cases hct : mcp_call tc.name tc.args <;> simp
  | some v =>
    by_cases hv : py_truthy v
    · simp [hv]
    · simp only [hv, if_false]
      cases hct : mcp_call tc.name tc.args <;> simp

/-- C8: the ACT phase produces exactly one tool-result message per tool
    call of the assistant message, in order, each tagged with the
    originating call identifier and the tool name — for successes, cache
    hits and failures alike. -/
theorem C8_confirmed (dumps : PyVal → String)
    (cache_lookup : String → List (String × PyVal) → Option PyVal)
    (mcp_call : String → List (String × PyVal) → Except String McpResult)
    (loads : String → Except String PyVal) (calls : List ToolCall) :
    (tools_node dumps cache_lookup mcp_call loads calls).length = calls.length ∧
    (tools_node dumps cache_lookup mcp_call loads calls).map
        (fun o => o.msg.tool_call_id) = calls.map (fun tc => tc.id) ∧
    (tools_node dumps cache_lookup mcp_call loads calls).map
        (fun o => o.msg.name) = calls.map (fun tc => tc.name) := by
  refine ⟨by simp [tools_node], ?_, ?_⟩ <;>
  · induction calls with
    | nil => simp [tools_node]
    | cons c cs ih =>
      simp only [tools_node, List.map_cons] at ih ⊢
      have h := run_tool_call_tag dumps cache_lookup mcp_call loads c
      simp [h.1, h.2, ih]

theorem run_loop_error_msg (llm : List Msg → Except String (String × List ToolCall))
    (dumps : PyVal → String)
    (cache_lookup : String → List (String × PyVal) → Option PyVal)
    (mcp_call : String → List (String × PyVal) → Except String McpResult)
    (loads : String → Except String PyVal) :
    ∀ (fuel : ℕ) (msgs : List Msg) (e : String),
      run_loop llm dumps cache_lookup mcp_call loads fuel msgs = Except.error e →
        e = recursion_msg := by
  intro fuel
  induction fuel with
  | zero =>
    intro msgs e h
    simp only [run_loop] at h
    exact (Except.error.injEq _ _).mp h.symm
  | succ n ih =>
    intro msgs e h
    simp only [run_loop] at h
    split at h
    · exact absurd h (by simp)
    · exact ih _ e h

/-- C2: a tool exception during the ACT phase becomes a tool-result message
    whose payload carries the error text and the failing tool name (the
    message itself also tagged with the tool name), instead of aborting the
    turn: the loop can only fail with the recursion-limit error, never with
    a tool error, and invoke always returns an answer string and a tool
    list — either the final message with the tools used, or the error
    answer with an empty list. -/
theorem C2_confirmed :
    (∀ (dumps : PyVal → String)
      (cache_lookup : String → List (String × PyVal) → Option PyVal)
      (mcp_call : String → List (String × PyVal) → Except String McpResult)
      (loads : String → Except String PyVal) (tc : ToolCall) (e : String),
      mcp_call tc.name tc.args = Except.error e →
      (match cache_lookup tc.name tc.args with
       | Option.none => True
       | Option.some v => py_truthy v = false) →
      (run_tool_call dumps cache_lookup mcp_call loads tc).msg.contentVal
          = PyVal.obj [("error", PyVal.str e), ("tool", PyVal.str tc.name)] ∧
      (run_tool_call dumps cache_lookup mcp_call loads tc).msg.name = tc.name ∧
      (run_tool_call dumps cache_lookup mcp_call loads tc).msg.content
          = dumps (PyVal.obj [("error", PyVal.str e), ("tool", PyVal.str tc.name)])) ∧
    (∀ llm dumps cache_lookup mcp_call loads fuel msgs e,
      run_loop llm dumps cache_lookup mcp_call loads fuel msgs = Except.error e →
        e = recursion_msg) ∧
    (∀ llm dumps cache_lookup mcp_call loads fuel message,
      (∃ msgs, run_loop llm dumps cache_lookup mcp_call loads fuel [Msg.human message]
            = Except.ok msgs ∧
          invoke llm dumps cache_lookup mcp_call loads fuel message
            = (last_content msgs, tools_used msgs)) ∨
      invoke llm dumps cache_lookup mcp_call loads fuel message
          = ("I encountered an error: " ++ recursion_msg, [])) := by
  refine ⟨?_, ?_, ?_⟩
  · intro dumps cache_lookup mcp_call loads tc e hct hcg
    unfold run_tool_call rpc_tool_call
    cases hcgv : cache_lookup tc.name tc.args with
    | none => simp [hct]
    | some v =>
      rw [hcgv] at hcg
      simp only [hcg, if_false]
      simp [hct]
  · intro llm dumps cache_lookup mcp_call loads fuel msgs e
    exact run_loop_error_msg llm dumps cache_lookup mcp_call loads fuel msgs e
  · intro llm dumps cache_lookup mcp_call loads fuel message
    cases h : run_loop llm dumps cache_lookup mcp_call loads fuel [Msg.human message] with
    | ok msgs =>
      left
      exact ⟨msgs, rfl, by simp [invoke, h]⟩
    | error e =>
      right
      have he := run_loop_error_msg llm dumps cache_lookup mcp_call loads fuel
        [Msg.human message] e h
      simp [invoke, h, he]

/-- C2 witness: a failing tool produces the error payload message. -/
theorem C2_witness :
    (run_tool_call (fun _ => "") (fun _ _ => Option.none)
        (fun _ _ => Except.error "boom") (fun _ => Except.error "")
        ⟨"call1", "get_stock_price", []⟩).msg.contentVal
      = PyVal.obj [("error", PyVal.str "boom"), ("tool", PyVal.str "get_stock_price")] := by
  exact (C2_confirmed.1 (fun _ => "") (fun _ _ => Option.none)
    (fun _ _ => Except.error "boom") (fun _ => Except.error "")
    ⟨"call1", "get_stock_price", []⟩ "boom" rfl trivial).1

/-- C7: when the backing store is unavailable every operation is a
    pass-through: cache get returns None, cache set and delete return
    False, and the rate limiter allows every identity and endpoint; a
    storage error raised during an enabled check also allows. -/
theorem C7_confirmed (store_get : String → Option String)
    (loads : String → Except String PyVal) (name : String)
    (args : List (String × JVal)) (store_set : String → String → Int → Bool)
    (value_json : Except String String) (ttl : Option Int)
    (store_del : String → Bool) (rpm burst : ℕ) (store : String → Fetch)
    (identifier endpoint : String) (now : ℚ) :
    (cache_get false store_get loads name args).1 = Option.none ∧
    (cache_set false store_set value_json ttl name args).1 = false ∧
    (cache_delete false store_del name args).1 = false ∧
    (check_rate_limit_at rpm burst false store identifier endpoint now).allowed = true ∧
    (check_rate_limit rpm burst true Fetch.err now).allowed = true := by
  exact ⟨rfl, rfl, rfl, rfl, rfl⟩

/-- C9: a falsy cached value — for instance an empty object — fails the
    truthiness test of the ACT phase, so the tool is re-invoked over RPC and
    the message carries the freshly extracted result, not the cached one;
    likewise ResponseCache.get reports a miss when the stored serialized
    string is falsy (empty). -/
theorem C9_confirmed :
    (∀ (dumps : PyVal → String)
      (cache_lookup : String → List (String × PyVal) → Option PyVal)
      (mcp_call : String → List (String × PyVal) → Except String McpResult)
      (loads : String → Except String PyVal) (tc : ToolCall) (v : PyVal),
      cache_lookup tc.name tc.args = Option.some v → py_truthy v = false →
      (run_tool_call dumps cache_lookup mcp_call loads tc).usedRpc = true ∧
      ∀ r, mcp_call tc.name tc.args = Except.ok r →
        (run_tool_call dumps cache_lookup mcp_call loads tc).msg.contentVal
          = extract_result loads r) ∧
    (∀ (store_get : String → Option String) (loads : String → Except String PyVal)
      (name : String) (args : List (String × JVal)),
      store_get (make_key name args) = Option.some "" →
      (cache_get true store_get loads name args).1 = Option.none) := by
  constructor
  · intro dumps cache_lookup mcp_call loads tc v hcg hv
    unfold run_tool_call
    simp only [hcg, hv, if_false]
    constructor
    · unfold rpc_tool_call
      cases hct : mcp_call tc.name tc.args <;> simp
    · intro r hct
      unfold rpc_tool_call
      simp [hct]
  · intro store_get loads name args hsg
    simp [cache_get, cache_get_core, hsg]

/-- C9 witness: an empty cached object triggers the RPC path, and an empty
    stored string is reported as a miss. -/
theorem C9_witness :
    (run_tool_call (fun _ => "") (fun _ _ => Option.some (PyVal.obj []))
        (fun _ _ => Except.ok ⟨[], "r"⟩) (fun _ => Except.error "")
        ⟨"call1", "get_stock_price", []⟩).usedRpc = true ∧
    (cache_get true (fun _ => Option.some "") (fun _ => Except.error "")
        "get_stock_price" []).1 = Option.none := by
  exact ⟨(C9_confirmed.1 (fun _ => "") (fun _ _ => Option.some (PyVal.obj []))
      (fun _ _ => Except.ok ⟨[], "r"⟩) (fun _ => Except.error "")
      ⟨"call1", "get_stock_price", []⟩ (PyVal.obj []) rfl rfl).1,
    C9_confirmed.2 (fun _ => Option.some "") (fun _ => Except.error "")
      "get_stock_price" [] rfl⟩

/-- C10: the enabled flag captured at construction from the availability
    sampled at singleton initialization decides, uniformly for every later
    per-call store behaviour, whether each operation enters its try block;
    with a false flag every operation is the degraded pass-through. -/
theorem C10_confirmed (url token : Option String) (ping : Bool)
    (store_get : String → Option String) (loads : String → Except String PyVal)
    (name : String) (args : List (String × JVal))
    (store_set : String → String → Int → Bool) (value_json : Except String String)
    (ttl : Option Int) (store_del : String → Bool) (rpm burst : ℕ)
    (store : String → Fetch) (identifier endpoint : String) (now : ℚ) :
    (cache_get (mk_response_cache (redis_available url token ping)).enabled
        store_get loads name args).2 = redis_available url token ping ∧
    (cache_set (mk_response_cache (redis_available url token ping)).enabled
        store_set value_json ttl name args).2 = redis_available url token ping ∧
    (cache_delete (mk_response_cache (redis_available url token ping)).enabled
        store_del name args).2 = redis_available url token ping ∧
    (check_rate_limit_at rpm burst
        (mk_rate_limiter rpm burst (redis_available url token ping)).enabled
        store identifier endpoint now).attempted = redis_available url token ping ∧
    (cache_get (mk_response_cache false).enabled store_get loads name args).1
        = Option.none ∧
    (cache_set (mk_response_cache false).enabled store_set value_json ttl name args).1
        = false ∧
    (cache_delete (mk_response_cache false).enabled store_del name args).1 = false ∧
    (check_rate_limit_at rpm burst (mk_rate_limiter rpm burst false).enabled
        store identifier endpoint now).allowed = true := by
  cases hav : redis_available url token ping with
  | false =>
    refine ⟨rfl, rfl, rfl, ?_, rfl, rfl, rfl, rfl⟩
    exact rfl
  | true =>
    refine ⟨rfl, rfl, rfl, ?_, rfl, rfl, rfl, rfl⟩
    unfold check_rate_limit_at check_rate_limit
    simp only [mk_rate_limiter, Bool.true_eq_false, if_false]
    split
    · rfl
    · split <;> rfl

/-! Lemmas toward C3: the embedded json.dumps composed with sorting is
    order-insensitive and injective, and the derived key has the documented
    shape. -/

theorem hex_digit_mem (n : ℕ) : hex_digit n ∈ hex_digits := by
  unfold hex_digit
  rcases h : hex_digits[n]? with _ | c
  · rw [List.getD_eq_getElem?_getD, h]
    decide
  · rw [List.getD_eq_getElem?_getD, h]
    exact List.getElem?_mem h

theorem hex_digit_digit : ∀ m, m < 10 → (hex_digit m).isDigit = true := by decide

theorem hex_digit_val : ∀ m, m < 10 → (hex_digit m).toNat - 48 = m := by decide

theorem nat_chars_aux_digits :
    ∀ (fuel n : ℕ), n < fuel → ∀ c ∈ nat_chars_aux fuel n, c.isDigit = true := by
  intro fuel
  induction fuel with
  | zero => intro n h; omega
  | succ f ih =>
    intro n h c hc
    unfold nat_chars_aux at hc
    split at hc
    · rename_i hn
      simp only [List.mem_singleton] at hc
      subst hc
      exact hex_digit_digit n hn
    · rename_i hn
      rcases List.mem_append.mp hc with h1 | h2
      · exact ih (n / 10) (by omega) c h1
      · simp only [List.mem_singleton] at h2
        subst h2
        exact hex_digit_digit (n % 10) (by omega)

theorem nat_chars_aux_ne_nil (fuel n : ℕ) (h : n < fuel) : nat_chars_aux fuel n ≠ [] := by
  cases fuel with
  | zero => omega
  | succ f =>
    unfold nat_chars_aux
    split
    · simp
    · simp

theorem nat_chars_aux_val :
    ∀ (fuel n : ℕ), n < fuel → ∀ a : ℕ,
      (nat_chars_aux fuel n).foldl (fun a c => 10 * a + (c.toNat - 48)) a
        = a * 10 ^ (nat_chars_aux fuel n).length + n := by
  intro fuel
  induction fuel with
  | zero => intro n h; omega
  | succ f ih =>
    intro n h a
    unfold nat_chars_aux
    split
    · rename_i hn
      simp only [List.foldl_cons, List.foldl_nil, List.length_singleton]
      rw [hex_digit_val n hn]
      ring
    · rename_i hn
      rw [List.foldl_append, List.length_append]
      rw [ih (n / 10) (by omega) a]
      simp only [List.foldl_cons, List.foldl_nil, List.length_singleton]
      rw [hex_digit_val (n % 10) (by omega)]
      rw [pow_succ]
      have hmod : 10 * (n / 10) + n % 10 = n := by omega
      ring_nf
      ring_nf at hmod ⊢
      nlinarith [hmod]

theorem nat_chars_digits (n : ℕ) : ∀ c ∈ nat_chars n, c.isDigit = true :=
  nat_chars_aux_digits (n + 1) n (by omega)

theorem nat_chars_ne_nil (n : ℕ) : nat_chars n ≠ [] :=
  nat_chars_aux_ne_nil (n + 1) n (by omega)

theorem digits_val_nat_chars (n : ℕ) : digits_val (nat_chars n) = n := by
  unfold digits_val nat_chars
  rw [nat_chars_aux_val (n + 1) n (by omega) 0]
  simp

theorem nat_chars_inj {n m : ℕ} (h : nat_chars n = nat_chars m) : n = m := by
  have := digits_val_nat_chars n
  rw [h, digits_val_nat_chars] at this
  omega

/-- Splitting an equation of concatenations at the boundary marked by a
    predicate: both left parts satisfy it, both right parts start with a
    character that does not. -/
theorem pred_split (p : Char → Bool) :
    ∀ (l1 l2 r1 r2 : List Char), l1 ++ r1 = l2 ++ r2 →
      (∀ c ∈ l1, p c = true) → (∀ c ∈ l2, p c = true) →
      (∀ c, r1.head? = some c → p c = false) →
      (∀ c, r2.head? = some c → p c = false) →
      l1 = l2 ∧ r1 = r2 := by
  intro l1
  induction l1 with
  | nil =>
    intro l2 r1 r2 h h1 h2 hr1 hr2
    cases l2 with
    | nil => simpa using h
    | cons c cs =>
      exfalso
      simp only [List.nil_append, List.cons_append] at h
      have hf := hr1 c (by rw [h]; rfl)
      have ht := h2 c (List.mem_cons_self c cs)
      rw [ht] at hf
      simp at hf
  | cons a as ih =>
    intro l2 r1 r2 h h1 h2 hr1 hr2
    cases l2 with
    | nil =>
      exfalso
      simp only [List.nil_append, List.cons_append] at h
      have hf := hr2 a (by rw [← h]; rfl)
      have ht := h1 a (List.mem_cons_self a as)
      rw [ht] at hf
      simp at hf
    | cons b bs =>
      simp only [List.cons_append, List.cons.injEq] at h
      obtain ⟨rfl, h⟩ := h
      obtain ⟨h3, h4⟩ := ih bs r1 r2 h (fun c hc => h1 c (List.mem_cons_of_mem _ hc))
        (fun c hc => h2 c (List.mem_cons_of_mem _ hc)) hr1 hr2
      exact ⟨by rw [h3], h4⟩

theorem nat_chars_split {n m : ℕ} {r1 r2 : List Char}
    (h : nat_chars n ++ r1 = nat_chars m ++ r2)
    (hr1 : ∀ c, r1.head? = some c → c.isDigit = false)
    (hr2 : ∀ c, r2.head? = some c → c.isDigit = false) :
    n = m ∧ r1 = r2 := by
  obtain ⟨h1, h2⟩ := pred_split Char.isDigit (nat_chars n) (nat_chars m) r1 r2 h
    (nat_chars_digits n) (nat_chars_digits m) hr1 hr2
  exact ⟨nat_chars_inj h1, h2⟩

theorem esc_special_cases {c d : Char} (h : esc_special c = Option.some d) :
    (c = '"' ∧ d = '"') ∨ (c = '\\' ∧ d = '\\') ∨ (c = '\x08' ∧ d = 'b') ∨
    (c = '\x0c' ∧ d = 'f') ∨ (c = '\n' ∧ d = 'n') ∨ (c = '\r' ∧ d = 'r') ∨
    (c = '\t' ∧ d = 't') := by
  unfold esc_special at h
  split_ifs at h with h1 h2 h3 h4 h5 h6 h7
  · exact Or.inl ⟨h1, (Option.some.inj h).symm⟩
  · exact Or.inr (Or.inl ⟨h2, (Option.some.inj h).symm⟩)
  · exact Or.inr (Or.inr (Or.inl ⟨h3, (Option.some.inj h).symm⟩))
  · exact Or.inr (Or.inr (Or.inr (Or.inl ⟨h4, (Option.some.inj h).symm⟩)))
  · exact Or.inr (Or.inr (Or.inr (Or.inr (Or.inl ⟨h5, (Option.some.inj h).symm⟩))))
  · exact Or.inr (Or.inr (Or.inr (Or.inr (Or.inr (Or.inl ⟨h6, (Option.some.inj h).symm⟩)))))
  · exact Or.inr (Or.inr (Or.inr (Or.inr (Or.inr (Or.inr ⟨h7, (Option.some.inj h).symm⟩)))))

theorem esc_special_none_quote {c : Char} (h : esc_special c = Option.none) : c ≠ '"' := by
  intro hc
  subst hc
  simp [esc_special] at h

theorem esc_special_none_backslash {c : Char} (h : esc_special c = Option.none) :
    c ≠ '\\' := by
  intro hc
  subst hc
  simp [esc_special] at h

theorem esc_special_d_ne_u {c d : Char} (h : esc_special c = Option.some d) : d ≠ 'u' := by
  rcases esc_special_cases h with ⟨-, hd⟩ | ⟨-, hd⟩ | ⟨-, hd⟩ | ⟨-, hd⟩ | ⟨-, hd⟩ | ⟨-, hd⟩ |
    ⟨-, hd⟩ <;> (subst hd; decide)

theorem esc_special_inj {c1 c2 d : Char} (h1 : esc_special c1 = Option.some d)
    (h2 : esc_special c2 = Option.some d) : c1 = c2 := by
  rcases esc_special_cases h1 with ⟨e1, f1⟩ | ⟨e1, f1⟩ | ⟨e1, f1⟩ | ⟨e1, f1⟩ | ⟨e1, f1⟩ |
      ⟨e1, f1⟩ | ⟨e1, f1⟩ <;>
    rcases esc_special_cases h2 with ⟨e2, f2⟩ | ⟨e2, f2⟩ | ⟨e2, f2⟩ | ⟨e2, f2⟩ | ⟨e2, f2⟩ |
      ⟨e2, f2⟩ | ⟨e2, f2⟩ <;>
    subst e1 <;> subst e2 <;>
    first
      | rfl
      | exact absurd (f1.symm.trans f2) (by decide)

theorem hex_digit_inj16 : ∀ a, a < 16 → ∀ b, b < 16 → hex_digit a = hex_digit b → a = b := by
  decide

theorem hex4_split {a b : ℕ} {r1 r2 : List Char} (ha : a < 65536) (hb : b < 65536)
    (h : hex4 a ++ r1 = hex4 b ++ r2) : a = b ∧ r1 = r2 := by
  simp only [hex4, List.cons_append, List.nil_append, List.cons.injEq] at h
  obtain ⟨e1, e2, e3, e4, er⟩ := h
  have d1 := hex_digit_inj16 _ (Nat.mod_lt _ (by norm_num)) _ (Nat.mod_lt _ (by norm_num)) e1
  have d2 := hex_digit_inj16 _ (Nat.mod_lt _ (by norm_num)) _ (Nat.mod_lt _ (by norm_num)) e2
  have d3 := hex_digit_inj16 _ (Nat.mod_lt _ (by norm_num)) _ (Nat.mod_lt _ (by norm_num)) e3
  have d4 := hex_digit_inj16 _ (Nat.mod_lt _ (by norm_num)) _ (Nat.mod_lt _ (by norm_num)) e4
  exact ⟨by omega, er⟩

theorem char_toNat_inj {c1 c2 : Char} (h : c1.toNat = c2.toNat) : c1 = c2 := by
  have h2 := congrArg Char.ofNat h
  rwa [Char.ofNat_toNat, Char.ofNat_toNat] at h2

theorem char_valid (c : Char) :
    c.toNat < 55296 ∨ (57343 < c.toNat ∧ c.toNat < 1114112) := by
  have h := c.valid
  unfold UInt32.isValidChar Nat.isValidChar at h
  exact h

theorem esc_char_split {c1 c2 : Char} {r1 r2 : List Char}
    (h : esc_char c1 ++ r1 = esc_char c2 ++ r2) : c1 = c2 ∧ r1 = r2 := by
  unfold esc_char at h
  cases hs1 : esc_special c1 with
  | some d1 =>
    rw [hs1] at h
    cases hs2 : esc_special c2 with
    | some d2 =>
      rw [hs2] at h
      simp only [List.cons_append, List.nil_append, List.cons.injEq] at h
      obtain ⟨-, hd, hr⟩ := h
      subst hd
      exact ⟨esc_special_inj hs1 hs2, hr⟩
    | none =>
      rw [hs2] at h
      by_cases hb2 : c2.toNat < 32 ∨ 127 ≤ c2.toNat
      · rw [if_pos hb2] at h
        by_cases hc2 : c2.toNat < 65536
        · rw [if_pos hc2] at h
          simp only [List.cons_append, List.cons.injEq] at h
          exact absurd h.2.1 (esc_special_d_ne_u hs1)
        · rw [if_neg hc2] at h
          simp only [List.cons_append, List.append_assoc, List.cons.injEq] at h
          exact absurd h.2.1 (esc_special_d_ne_u hs1)
      · rw [if_neg hb2] at h
        simp only [List.cons_append, List.singleton_append, List.cons.injEq] at h
        exact absurd h.1.symm (esc_special_none_backslash hs2)
  | none =>
    rw [hs1] at h
    cases hs2 : esc_special c2 with
    | some d2 =>
      rw [hs2] at h
      by_cases hb1 : c1.toNat < 32 ∨ 127 ≤ c1.toNat
      · rw [if_pos hb1] at h
        by_cases hc1 : c1.toNat < 65536
        · rw [if_pos hc1] at h
          simp only [List.cons_append, List.cons.injEq] at h
          exact absurd h.2.1.symm (esc_special_d_ne_u hs2)
        · rw [if_neg hc1] at h
          simp only [List.cons_append, List.append_assoc, List.cons.injEq] at h
          exact absurd h.2.1.symm (esc_special_d_ne_u hs2)
      · rw [if_neg hb1] at h
        simp only [List.cons_append, List.singleton_append, List.cons.injEq] at h
        exact absurd h.1 (esc_special_none_backslash hs1)
    | none =>
      rw [hs2] at h
      by_cases hb1 : c1.toNat < 32 ∨ 127 ≤ c1.toNat
      · by_cases hb2 : c2.toNat < 32 ∨ 127 ≤ c2.toNat
        · rw [if_pos hb1, if_pos hb2] at h
          by_cases hc1 : c1.toNat < 65536
          · by_cases hc2 : c2.toNat < 65536
            · rw [if_pos hc1, if_pos hc2] at h
              simp only [List.cons_append, List.cons.injEq] at h
              obtain ⟨ha, hr⟩ := hex4_split hc1 hc2 h.2.2
              exact ⟨char_toNat_inj ha, hr⟩
            · rw [if_pos hc1, if_neg hc2] at h
              simp only [List.cons_append, List.append_assoc, List.cons.injEq] at h
              exfalso
              have hv2 : c2.toNat < 1114112 := by
                rcases char_valid c2 with hv | hv
                · omega
                · omega
              have hA : 55296 + (c2.toNat - 65536) / 1024 < 65536 := by omega
              obtain ⟨ha, -⟩ := hex4_split hc1 hA h.2.2
              rcases char_valid c1 with hv | hv <;> omega
          · by_cases hc2 : c2.toNat < 65536
            · rw [if_neg hc1, if_pos hc2] at h
              simp only [List.cons_append, List.append_assoc, List.cons.injEq] at h
              exfalso
              have hv1 : c1.toNat < 1114112 := by
                rcases char_valid c1 with hv | hv
                · omega
                · omega
              have hA : 55296 + (c1.toNat - 65536) / 1024 < 65536 := by omega
              obtain ⟨ha, -⟩ := hex4_split hA hc2 h.2.2
              rcases char_valid c2 with hv | hv <;> omega
            · rw [if_neg hc1, if_neg hc2] at h
              simp only [List.cons_append, List.append_assoc, List.cons.injEq] at h
              have hv1 : c1.toNat < 1114112 := by
                rcases char_valid c1 with hv | hv
                · omega
                · omega
              have hv2 : c2.toNat < 1114112 := by
                rcases char_valid c2 with hv | hv
                · omega
                · omega
              have hA1 : 55296 + (c1.toNat - 65536) / 1024 < 65536 := by omega
              have hA2 : 55296 + (c2.toNat - 65536) / 1024 < 65536 := by omega
              obtain ⟨ha, hresta⟩ := hex4_split hA1 hA2 h.2.2
              simp only [List.cons_append, List.cons.injEq] at hresta
              have hB1 : 56320 + (c1.toNat - 65536) % 1024 < 65536 := by omega
              have hB2 : 56320 + (c2.toNat - 65536) % 1024 < 65536 := by omega
              obtain ⟨hbv, hr⟩ := hex4_split hB1 hB2 hresta.2.2
              refine ⟨char_toNat_inj ?_, hr⟩
              omega
        · rw [if_pos hb1, if_neg hb2] at h
          exfalso
          by_cases hc1 : c1.toNat < 65536
          · rw [if_pos hc1] at h
            simp only [List.cons_append, List.singleton_append, List.cons.injEq] at h
            exact esc_special_none_backslash hs2 h.1.symm
          · rw [if_neg hc1] at h
            simp only [List.cons_append, List.append_assoc, List.singleton_append,
              List.cons.injEq] at h
            exact esc_special_none_backslash hs2 h.1.symm
      · by_cases hb2 : c2.toNat < 32 ∨ 127 ≤ c2.toNat
        · rw [if_neg hb1, if_pos hb2] at h
          exfalso
          by_cases hc2 : c2.toNat < 65536
          · rw [if_pos hc2] at h
            simp only [List.cons_append, List.singleton_append, List.cons.injEq] at h
            exact esc_special_none_backslash hs1 h.1
          · rw [if_neg hc2] at h
            simp only [List.cons_append, List.append_assoc, List.singleton_append,
              List.cons.injEq] at h
            exact esc_special_none_backslash hs1 h.1
        · rw [if_neg hb1, if_neg hb2] at h
          simp only [List.singleton_append, List.cons.injEq] at h
          exact h

theorem esc_char_ne_nil (c : Char) : esc_char c ≠ [] := by
  unfold esc_char
  cases hs : esc_special c with
  | some d => simp
  | none => split_ifs <;> simp

theorem esc_char_head_ne_quote {c d : Char} {t : List Char} (h : esc_char c = d :: t) :
    d ≠ '"' := by
  unfold esc_char at h
  cases hs : esc_special c with
  | some e =>
    rw [hs] at h
    simp only [List.cons.injEq] at h
    rw [← h.1]
    decide
  | none =>
    rw [hs] at h
    split_ifs at h with hb hc
    · simp only [List.cons.injEq] at h
      rw [← h.1]
      decide
    · simp only [List.cons_append, List.cons.injEq] at h
      rw [← h.1]
      decide
    · simp only [List.cons.injEq, and_true] at h
      rw [← h.1]
      exact esc_special_none_quote hs

theorem esc_string_quote_split :
    ∀ (s1 s2 r1 r2 : List Char),
      esc_string s1 ++ '"' :: r1 = esc_string s2 ++ '"' :: r2 → s1 = s2 ∧ r1 = r2 := by
  intro s1
  induction s1 with
  | nil =>
    intro s2 r1 r2 h
    cases s2 with
    | nil => simpa [esc_string] using h
    | cons c cs =>
      exfalso
      simp only [esc_string, List.flatMap_cons, List.flatMap_nil, List.nil_append,
        List.append_assoc] at h
      rcases he : esc_char c with _ | ⟨d, t⟩
      · exact esc_char_ne_nil c he
      · rw [he] at h
        simp only [List.cons_append, List.cons.injEq] at h
        exact esc_char_head_ne_quote he h.1.symm
  | cons a as ih =>
    intro s2 r1 r2 h
    cases s2 with
    | nil =>
      exfalso
      simp only [esc_string, List.flatMap_cons, List.flatMap_nil, List.nil_append,
        List.append_assoc] at h
      rcases he : esc_char a with _ | ⟨d, t⟩
      · exact esc_char_ne_nil a he
      · rw [he] at h
        simp only [List.cons_append, List.cons.injEq] at h
        exact esc_char_head_ne_quote he h.1
    | cons b bs =>
      simp only [esc_string, List.flatMap_cons, List.append_assoc] at h
      obtain ⟨rfl, h2⟩ := esc_char_split h
      obtain ⟨h3, h4⟩ := ih bs r1 r2 (by simpa [esc_string] using h2)
      exact ⟨by rw [h3], h4⟩

theorem enc_str_split {s1 s2 r1 r2 : List Char}
    (h : enc_str s1 ++ r1 = enc_str s2 ++ r2) : s1 = s2 ∧ r1 = r2 := by
  unfold enc_str at h
  simp only [List.cons_append, List.append_assoc, List.singleton_append,
    List.cons.injEq] at h
  exact esc_string_quote_split s1 s2 r1 r2 h.2

theorem int_chars_ne_nil (n : Int) : int_chars n ≠ [] := by
  unfold int_chars
  split
  · simp
  · exact nat_chars_ne_nil _

theorem nat_chars_cons_digit {k : ℕ} {d : Char} {t : List Char}
    (h : nat_chars k = d :: t) : d.isDigit = true :=
  nat_chars_digits k d (by rw [h]; exact List.mem_cons_self _ _)

theorem int_chars_head {n : Int} {d : Char} {t : List Char} (h : int_chars n = d :: t) :
    d = '-' ∨ d.isDigit = true := by
  unfold int_chars at h
  split at h
  · rw [List.cons.injEq] at h
    exact Or.inl h.1.symm
  · exact Or.inr (nat_chars_cons_digit h)

theorem int_chars_split {n m : Int} {r1 r2 : List Char}
    (h : int_chars n ++ r1 = int_chars m ++ r2)
    (hr1 : ∀ c, r1.head? = some c → c.isDigit = false)
    (hr2 : ∀ c, r2.head? = some c → c.isDigit = false) :
    n = m ∧ r1 = r2 := by
  unfold int_chars at h
  by_cases h1 : n < 0 <;> by_cases h2 : m < 0
  · rw [if_pos h1, if_pos h2] at h
    simp only [List.cons_append, List.cons.injEq, true_and] at h
    obtain ⟨hn, hr⟩ := nat_chars_split h hr1 hr2
    exact ⟨by omega, hr⟩
  · exfalso
    rw [if_pos h1, if_neg h2] at h
    rcases hm : nat_chars m.toNat with _ | ⟨d, t⟩
    · exact nat_chars_ne_nil _ hm
    · rw [hm] at h
      simp only [List.cons_append, List.cons.injEq] at h
      have hd := nat_chars_cons_digit hm
      rw [← h.1] at hd
      exact absurd hd (by decide)
  · exfalso
    rw [if_neg h1, if_pos h2] at h
    rcases hn : nat_chars n.toNat with _ | ⟨d, t⟩
    · exact nat_chars_ne_nil _ hn
    · rw [hn] at h
      simp only [List.cons_append, List.cons.injEq] at h
      have hd := nat_chars_cons_digit hn
      rw [h.1] at hd
      exact absurd hd (by decide)
  · rw [if_neg h1, if_neg h2] at h
    obtain ⟨hn, hr⟩ := nat_chars_split h hr1 hr2
    exact ⟨by omega, hr⟩

theorem enc_val_split {v1 v2 : JVal} {r1 r2 : List Char}
    (h : enc_val v1 ++ r1 = enc_val v2 ++ r2)
    (hr1 : ∀ c, r1.head? = some c → c.isDigit = false)
    (hr2 : ∀ c, r2.head? = some c → c.isDigit = false) :
    v1 = v2 ∧ r1 = r2 := by
  cases v1 with
  | str s1 =>
    cases v2 with
    | str s2 =>
      simp only [enc_val] at h
      obtain ⟨hs, hr⟩ := enc_str_split h
      refine ⟨?_, hr⟩
      cases s1
      cases s2
      simp_all
    | int n =>
      exfalso
      simp only [enc_val] at h
      rcases he : int_chars n with _ | ⟨d, t⟩
      · exact int_chars_ne_nil n he
      · rw [he] at h
        simp only [enc_str, List.cons_append, List.cons.injEq] at h
        rcases int_chars_head he with hd | hd
        · rw [hd] at h
          exact absurd h.1 (by decide)
        · rw [← h.1] at hd
          exact absurd hd (by decide)
    | bool b =>
      exfalso
      cases b <;>
        (simp only [enc_val, enc_str, List.cons_append, List.cons.injEq] at h;
          exact absurd h.1 (by decide))
    | null =>
      exfalso
      simp only [enc_val, enc_str, List.cons_append, List.cons.injEq] at h
      exact absurd h.1 (by decide)
  | int n =>
    cases v2 with
    | str s2 =>
      exfalso
      simp only [enc_val] at h
      rcases he : int_chars n with _ | ⟨d, t⟩
      · exact int_chars_ne_nil n he
      · rw [he] at h
        simp only [enc_str, List.cons_append, List.cons.injEq] at h
        rcases int_chars_head he with hd | hd
        · rw [hd] at h
          exact absurd h.1 (by decide)
        · rw [h.1] at hd
          exact absurd hd (by decide)
    | int m =>
      simp only [enc_val] at h
      obtain ⟨hn, hr⟩ := int_chars_split h hr1 hr2
      exact ⟨by rw [hn], hr⟩
    | bool b =>
      exfalso
      rcases he : int_chars n with _ | ⟨d, t⟩
      · exact int_chars_ne_nil n he
      · cases b <;>
          (simp only [enc_val, he, List.cons_append, List.cons.injEq] at h;
            rcases int_chars_head he with hd | hd)
        · rw [hd] at h
          exact absurd h.1 (by decide)
        · rw [h.1] at hd
          exact absurd hd (by decide)
        · rw [hd] at h
          exact absurd h.1 (by decide)
        · rw [h.1] at hd
          exact absurd hd (by decide)
    | null =>
      exfalso
      rcases he : int_chars n with _ | ⟨d, t⟩
      · exact int_chars_ne_nil n he
      · simp only [enc_val, he, List.cons_append, List.cons.injEq] at h
        rcases int_chars_head he with hd | hd
        · rw [hd] at h
          exact absurd h.1 (by decide)
        · rw [h.1] at hd
          exact absurd hd (by decide)
  | bool b1 =>
    cases v2 with
    | str s2 =>
      exfalso
      cases b1 <;>
        (simp only [enc_val, enc_str, List.cons_append, List.cons.injEq] at h;
          exact absurd h.1 (by decide))
    | int m =>
      exfalso
      rcases he : int_chars m with _ | ⟨d, t⟩
      · exact int_chars_ne_nil m he
      · cases b1 <;>
          (simp only [enc_val, he, List.cons_append, List.cons.injEq] at h;
            rcases int_chars_head he with hd | hd)
        · rw [hd] at h
          exact absurd h.1 (by decide)
        · rw [← h.1] at hd
          exact absurd hd (by decide)
        · rw [hd] at h
          exact absurd h.1 (by decide)
        · rw [← h.1] at hd
          exact absurd hd (by decide)
    | bool b2 =>
      cases b1 <;> cases b2
      · simp only [enc_val, List.cons_append, List.cons.injEq, true_and] at h
        exact ⟨rfl, h⟩
      · exfalso
        simp only [enc_val, List.cons_append, List.cons.injEq] at h
        exact absurd h.1 (by decide)
      · exfalso
        simp only [enc_val, List.cons_append, List.cons.injEq] at h
        exact absurd h.1 (by decide)
      · simp only [enc_val, List.cons_append, List.cons.injEq, true_and] at h
        exact ⟨rfl, h⟩
    | null =>
      exfalso
      cases b1 <;>
        (simp only [enc_val, List.cons_append, List.cons.injEq] at h;
          exact absurd h.1 (by decide))
  | null =>
    cases v2 with
    | str s2 =>
      exfalso
      simp only [enc_val, enc_str, List.cons_append, List.cons.injEq] at h
      exact absurd h.1 (by decide)
    | int m =>
      exfalso
      rcases he : int_chars m with _ | ⟨d, t⟩
      · exact int_chars_ne_nil m he
      · simp only [enc_val, he, List.cons_append, List.cons.injEq] at h
        rcases int_chars_head he with hd | hd
        · rw [hd] at h
          exact absurd h.1 (by decide)
        · rw [← h.1] at hd
          exact absurd hd (by decide)
    | bool b2 =>
      exfalso
      cases b2 <;>
        (simp only [enc_val, List.cons_append, List.cons.injEq] at h;
          exact absurd h.1 (by decide))
    | null =>
      simp only [enc_val, List.cons_append, List.cons.injEq, true_and] at h
      exact ⟨rfl, h⟩

theorem enc_pair_split {p1 p2 : String × JVal} {r1 r2 : List Char}
    (h : enc_pair p1 ++ r1 = enc_pair p2 ++ r2) : p1 = p2 ∧ r1 = r2 := by
  obtain ⟨k1, v1⟩ := p1
  obtain ⟨k2, v2⟩ := p2
  unfold enc_pair at h
  simp only [List.cons_append, List.append_assoc, List.singleton_append,
    List.cons.injEq, true_and] at h
  obtain ⟨hk, h2⟩ := enc_str_split h
  simp only [List.cons.injEq, true_and] at h2
  obtain ⟨hv, h3⟩ := enc_val_split h2
    (fun c hc => by
      rw [List.head?_cons] at hc
      rw [← Option.some.inj hc]
      decide)
    (fun c hc => by
      rw [List.head?_cons] at hc
      rw [← Option.some.inj hc]
      decide)
  simp only [List.cons.injEq, true_and] at h3
  refine ⟨?_, h3⟩
  have hks : k1 = k2 := by
    cases k1
    cases k2
    simp_all
  rw [hks, hv]

theorem enc_items_aux_split :
    ∀ (l1 l2 : List (String × JVal)) (r1 r2 : List Char),
      enc_items_aux l1 ++ ']' :: r1 = enc_items_aux l2 ++ ']' :: r2 →
      l1 = l2 ∧ r1 = r2 := by
  intro l1
  induction l1 with
  | nil =>
    intro l2 r1 r2 h
    cases l2 with
    | nil => simpa [enc_items_aux] using h
    | cons q qs =>
      exfalso
      cases qs with
      | nil =>
        simp only [enc_items_aux, enc_pair, List.nil_append, List.cons_append,
          List.cons.injEq] at h
        exact absurd h.1 (by decide)
      | cons q2 qs2 =>
        simp only [enc_items_aux, enc_pair, List.nil_append, List.cons_append,
          List.append_assoc, List.cons.injEq] at h
        exact absurd h.1 (by decide)
  | cons p ps ih =>
    intro l2 r1 r2 h
    cases l2 with
    | nil =>
      exfalso
      cases ps with
      | nil =>
        simp only [enc_items_aux, enc_pair, List.nil_append, List.cons_append,
          List.cons.injEq] at h
        exact absurd h.1 (by decide)
      | cons p2 ps2 =>
        simp only [enc_items_aux, enc_pair, List.nil_append, List.cons_append,
          List.append_assoc, List.cons.injEq] at h
        exact absurd h.1 (by decide)
    | cons q qs =>
      cases ps with
      | nil =>
        cases qs with
        | nil =>
          simp only [enc_items_aux] at h
          obtain ⟨hpq, hr⟩ := enc_pair_split h
          simp only [List.cons.injEq, true_and] at hr
          exact ⟨by rw [hpq], hr⟩
        | cons q2 qs2 =>
          exfalso
          simp only [enc_items_aux, List.append_assoc, List.cons_append] at h
          obtain ⟨-, hr⟩ := enc_pair_split h
          simp only [List.cons.injEq] at hr
          exact absurd hr.1 (by decide)
      | cons p2 ps2 =>
        cases qs with
        | nil =>
          exfalso
          simp only [enc_items_aux, List.append_assoc, List.cons_append] at h
          obtain ⟨-, hr⟩ := enc_pair_split h
          simp only [List.cons.injEq] at hr
          exact absurd hr.1 (by decide)
        | cons q2 qs2 =>
          simp only [enc_items_aux, List.append_assoc, List.cons_append] at h
          obtain ⟨hpq, hr⟩ := enc_pair_split h
          simp only [List.cons.injEq, true_and] at hr
          obtain ⟨hl, hrr⟩ := ih (q2 :: qs2) r1 r2 hr
          exact ⟨by rw [hpq, hl], hrr⟩

theorem enc_items_inj {l1 l2 : List (String × JVal)} (h : enc_items l1 = enc_items l2) :
    l1 = l2 := by
  unfold enc_items at h
  injection h with h1 h2
  exact (enc_items_aux_split l1 l2 [] [] h2).1

theorem sort_items_perm (l : List (String × JVal)) : (sort_items l).Perm l :=
  List.perm_insertionSort pair_le l

theorem sort_items_sorted (l : List (String × JVal)) :
    List.Sorted pair_le (sort_items l) :=
  List.sorted_insertionSort pair_le l

theorem sorted_pairwise_lt {l : List (String × JVal)} (hs : List.Sorted pair_le l)
    (hnd : (l.map Prod.fst).Nodup) : List.Pairwise pair_lt l := by
  have h2 : l.Pairwise (fun a b => a.1 ≠ b.1) := List.pairwise_map.mp hnd
  have h3 := List.Pairwise.and hs h2
  exact List.Pairwise.imp (fun hab => hab.1.resolve_right hab.2) h3

theorem sort_items_eq_of_perm {l1 l2 : List (String × JVal)} (h : l1.Perm l2)
    (hnd : (l1.map Prod.fst).Nodup) : sort_items l1 = sort_items l2 := by
  have hp : (sort_items l1).Perm (sort_items l2) :=
    (sort_items_perm l1).trans (h.trans (sort_items_perm l2).symm)
  have hnd2 : (l2.map Prod.fst).Nodup := ((h.map Prod.fst).nodup_iff).mp hnd
  have hnds1 : ((sort_items l1).map Prod.fst).Nodup :=
    (((sort_items_perm l1).map Prod.fst).nodup_iff).mpr hnd
  have hnds2 : ((sort_items l2).map Prod.fst).Nodup :=
    (((sort_items_perm l2).map Prod.fst).nodup_iff).mpr hnd2
  exact List.eq_of_perm_of_sorted hp
    (sorted_pairwise_lt (sort_items_sorted l1) hnds1)
    (sorted_pairwise_lt (sort_items_sorted l2) hnds2)

theorem word_hex_length (w : ℕ) : (word_hex w).length = 8 := by
  simp [word_hex]

theorem hexdigest_length (st : Hash8) : (hexdigest st).length = 64 := by
  simp [hexdigest, word_hex]

theorem word_hex_mem {w : ℕ} {c : Char} (h : c ∈ word_hex w) : c ∈ hex_digits := by
  simp only [word_hex, List.mem_cons, List.not_mem_nil, or_false] at h
  rcases h with h | h | h | h | h | h | h | h <;> (subst h; exact hex_digit_mem _)

theorem hexdigest_mem {st : Hash8} {c : Char} (h : c ∈ hexdigest st) : c ∈ hex_digits := by
  simp only [hexdigest, List.mem_append] at h
  rcases h with ((((((h | h) | h) | h) | h) | h) | h) | h <;> exact word_hex_mem h

theorem string_data_append (a b : String) : (a ++ b).data = a.data ++ b.data := rfl

theorem make_key_data (p : String) (l : List (String × JVal)) :
    (make_key p l).data = ("cache:" ++ p ++ ":").data ++ hash_tag l := by
  unfold make_key
  rw [string_data_append]

theorem make_key_eq_iff (p : String) (l1 l2 : List (String × JVal)) :
    make_key p l1 = make_key p l2 ↔ hash_tag l1 = hash_tag l2 := by
  constructor
  · intro h
    have hd := congrArg String.data h
    rw [make_key_data, make_key_data] at hd
    exact List.append_cancel_left hd
  · intro h
    unfold make_key
    rw [h]

/-- C3: sorting makes the derived cache key insensitive to argument
    insertion order; the serialized argument string is injective up to
    permutation of the items, so two different argument maps can share a key
    only through a collision of the 16-hex-character SHA-256 digest piece
    (keys with the same tool name agree exactly when those digest pieces
    agree); and every key is cache:<toolName>:<tag> where the tag is the
    first 16 hex characters of the SHA-256 hex digest of the UTF-8 encoded,
    sorted, deterministically serialized arguments. -/
theorem C3_confirmed :
    (∀ (p : String) (l1 l2 : List (String × JVal)), l1.Perm l2 →
        (l1.map Prod.fst).Nodup → make_key p l1 = make_key p l2) ∧
    (∀ l1 l2 : List (String × JVal), key_data l1 = key_data l2 → l1.Perm l2) ∧
    (∀ (p : String) (l1 l2 : List (String × JVal)),
        make_key p l1 = make_key p l2 ↔ hash_tag l1 = hash_tag l2) ∧
    (∀ (p : String) (l : List (String × JVal)),
        (make_key p l).data = ("cache:" ++ p ++ ":").data ++ hash_tag l ∧
        (hash_tag l).length = 16 ∧
        (∀ c ∈ hash_tag l, c ∈ hex_digits) ∧
        hash_tag l = (sha_hex (utf8 (key_data l))).take 16) := by
  refine ⟨?_, ?_, make_key_eq_iff, ?_⟩
  · intro p l1 l2 hperm hnd
    unfold make_key hash_tag key_data
    rw [sort_items_eq_of_perm hperm hnd]
  · intro l1 l2 h
    unfold key_data at h
    have hs := enc_items_inj h
    exact (sort_items_perm l1).symm.trans (by rw [hs]; exact sort_items_perm l2)
  · intro p l
    refine ⟨make_key_data p l, ?_, ?_, rfl⟩
    · unfold hash_tag sha_hex
      rw [List.length_take, hexdigest_length]
      decide
    · intro c hc
      unfold hash_tag sha_hex at hc
      exact hexdigest_mem (List.take_subset _ _ hc)

/-- C3 witness: two orderings of the same argument map share the key; equal
    serialized arguments are a permutation; the digest piece has 16
    characters. -/
theorem C3_witness :
    make_key "get_stock_price" [("symbol", JVal.str "AAPL"), ("days", JVal.int 30)]
        = make_key "get_stock_price" [("days", JVal.int 30), ("symbol", JVal.str "AAPL")] ∧
    ([("symbol", JVal.str "AAPL"), ("days", JVal.int 30)] : List (String × JVal)).Perm
        [("days", JVal.int 30), ("symbol", JVal.str "AAPL")] ∧
    (hash_tag [("symbol", JVal.str "AAPL"), ("days", JVal.int 30)]).length = 16 := by
  refine ⟨?_, ?_, ?_⟩
  · exact C3_confirmed.1 "get_stock_price" _ _ (by decide) (by decide)
  · exact C3_confirmed.2.1 _ _ (by decide)
  · exact (C3_confirmed.2.2.2 "get_stock_price"
      [("symbol", JVal.str "AAPL"), ("days", JVal.int 30)]).2.1

end Market
